import Mathlib

set_option maxHeartbeats 1000000
set_option maxRecDepth 8000

/-
Shallow embedding of the itzpremsingh/star HTTP router, taken from
src/__init__.py (class Star), src/converters.py and src/utils.py.

Modelling choices:
* Python strings are lists of characters (`Str`); `str` turns a Lean string
  literal into one.
* Python dicts (the per-method route tables and the query-argument map) are
  insertion-ordered association lists; `dictInsert` mirrors dict assignment
  (update in place keeps the original position, a fresh key is appended) and
  `lookupD` mirrors dict lookup.
* The regular expressions produced by `Star._handle_request` are modelled in
  two stages.  `scanPH` performs the placeholder substitution done by
  `re.sub`, yielding pattern text (`PatItem.lit`) interleaved with named
  capture groups over the three converter fragments (`PatItem.grp`).
  `compileWith` then models `re.compile` on the substituted pattern: the
  group-name validation (a name that is not an identifier, or a repeated
  name, is a `re.error`), followed by `parseRE`, which interprets the pattern
  text within the regex fragment this embedding models — ordinary
  characters, the greedy quantifiers `+`, `*`, `?` on a single ordinary
  character (including the `nothing to repeat` error for a leading
  quantifier).  Any construct outside that fragment (any other
  metacharacter such as parentheses, classes, alternation, anchors or the
  dot, a quantified group, stacked quantifiers) yields the DISTINGUISHED
  error `re.error: unmodelled regex feature`; no theorem below depends on an
  input that reaches it — quantified theorems carry a
  metacharacter-freeness hypothesis and the remaining ones use concrete
  metacharacter-free patterns.  `matchElems` is a greedy backtracking full
  matcher (`re.fullmatch`) for the compiled form.
* Exceptions that escape `_handle_request` (re.error, KeyError, ValueError)
  are the `Outcome.crashed` state / the `Except.error` result of `serve`;
  exception messages are abbreviated renderings of the Python ones.
* `render` (src/utils.py) is modelled on the template CONTENT rather than the
  template file name: reading the file is I/O glue outside the core.
-/

abbrev Str := List Char

def str (s : String) : Str := s.data

/-- Membership test for one character, mirroring the Python `c in s` test. -/
def hasChar (c : Char) : Str → Bool
  | [] => false
  | x :: rest => x == c || hasChar c rest

/-- Occurrence count of one character in a string. -/
def countChar (c : Char) : Str → Nat
  | [] => 0
  | x :: rest => (if x = c then 1 else 0) + countChar c rest

/-- Python `s.split(sep)` for a single-character separator: always returns at
least one piece, and empty pieces are kept. -/
def pySplit (sep : Char) : Str → List Str
  | [] => [[]]
  | c :: rest =>
    if c = sep then [] :: pySplit sep rest
    else
      match pySplit sep rest with
      | [] => [[c]]
      | s :: ss => (c :: s) :: ss

/-- Python `s.rstrip("/")`: removes the whole maximal run of trailing
slashes. -/
def rstripSlash (s : Str) : Str :=
  (s.reverse.dropWhile (fun c => c == '/')).reverse

/-- Python `s.split("?")[0]`: everything before the first question mark. -/
def stripQuery (raw : Str) : Str :=
  raw.takeWhile (fun c => c != '?')

/-- Python `s.split("?")[1]`: everything between the first and the second
question mark (used only when a question mark is present). -/
def queryOf (raw : Str) : Str :=
  ((raw.dropWhile (fun c => c != '?')).tail).takeWhile (fun c => c != '?')

/-- Normalisation done on line 79 of src/__init__.py:
`handler.path.split("?")[0].rstrip("/")`. -/
def normalizePath (raw : Str) : Str :=
  rstripSlash (stripQuery raw)

/-- Python dict assignment `d[k] = v` on an insertion-ordered association
list: an existing key keeps its position and gets the new value, a new key is
appended at the end. -/
def dictInsert {α : Type} (k : Str) (v : α) : List (Str × α) → List (Str × α)
  | [] => [(k, v)]
  | (k2, v2) :: rest =>
    if k2 = k then (k2, v) :: rest else (k2, v2) :: dictInsert k v rest

/-- Python dict lookup `d[k]` (keys are unique, the first hit is the value). -/
def lookupD {α : Type} (k : Str) : List (Str × α) → Option α
  | [] => none
  | (k2, v2) :: rest => if k2 = k then some v2 else lookupD k rest

/-- Python `s.upper()` (the method names used are ASCII). -/
def strUpper (s : Str) : Str := s.map Char.toUpper

/-- Python regex `\w` on ASCII input: letters, digits and the underscore. -/
def isWordChar (c : Char) : Bool := c.isAlphanum || c == '_'

/-- Value of a digit string, as computed by Python `int` on `\d+` input. -/
def digitsToNat (s : Str) : Nat :=
  s.foldl (fun n c => n * 10 + (c.toNat - 48)) 0

/-- Regex fragments of the three converters in src/converters.py:
`\d+` for int, `[^/]+` for string, `\d+\.\d+` for float. -/
inductive Frag where
  | digits
  | nonSlash
  | floatF
  deriving DecidableEq, Repr

/-- Values produced by converters.  Python float parsing is IEEE-754 and is
not modelled numerically; a float value carries the matched text (no dispatch
path of the source ever reaches a float conversion, see the C1 analysis). -/
inductive Value where
  | intV (n : Nat)
  | strV (s : Str)
  | floatV (raw : Str)
  deriving DecidableEq, Repr

/-- Converter of src/converters.py: a regex fragment plus a conversion
function; `none` models the conversion raising. -/
structure Converter where
  frag : Frag
  convert : Str → Option Value

/-- IntConverter: regex `\d+`, `convert = int`.  (Python `int` also accepts
signs and spaces; only pure digit strings can reach it here.) -/
def IntConverter : Converter :=
  { frag := Frag.digits
    convert := fun s =>
      if s ≠ [] ∧ s.all Char.isDigit then some (Value.intV (digitsToNat s))
      else none }

/-- StringConverter: regex `[^/]+`, identity conversion. -/
def StringConverter : Converter :=
  { frag := Frag.nonSlash
    convert := fun s => some (Value.strV s) }

/-- FloatConverter: regex `\d+\.\d+`, `convert = float`.  Only the shape
check is modelled; the value carries the raw text. -/
def FloatConverter : Converter :=
  { frag := Frag.floatF
    convert := fun s =>
      match pySplit '.' s with
      | [d1, d2] =>
        if d1 ≠ [] ∧ d2 ≠ [] ∧ d1.all Char.isDigit ∧ d2.all Char.isDigit then
          some (Value.floatV s)
        else none
      | _ => none }

/-- Registry `converters` of src/converters.py. -/
def converters : List (Str × Converter) :=
  [(str ("int"), IntConverter),
   (str ("string"), StringConverter),
   (str ("float"), FloatConverter)]

/-- Python `converters[name]`; `none` models the KeyError. -/
def convLookup (k : Str) : Option Converter := lookupD k converters

/-- Item of a compiled pattern: a literal character or a named capture group
holding one converter fragment. -/
inductive PatItem where
  | lit (c : Char)
  | grp (name : Str) (frag : Frag)
  deriving DecidableEq, Repr

/-- Test for a literal item. -/
def PatItem.isLit : PatItem → Bool
  | PatItem.lit _ => true
  | PatItem.grp _ _ => false

/-- Splits the inside of a `<...>` placeholder at a leading converter kind,
mirroring the regex alternation `(int|string|float):`. -/
def splitKindName (buf : Str) : Option (Str × Str) :=
  if str ("int:") = buf.take 4 then some (str ("int"), buf.drop 4)
  else if str ("string:") = buf.take 7 then some (str ("string"), buf.drop 7)
  else if str ("float:") = buf.take 6 then some (str ("float"), buf.drop 6)
  else none

/-- Replacement done by `Star._replace` for a typed placeholder
`<kind:name>`: a capture group named `name` whose body is the regex of
`converters[kind]`.  Returns `none` when the buffer is not of that shape, in
which case the regex `<(int|string|float):(\w+)>` does not match there. -/
def validateTyped (buf : Str) : Option (Str × Frag) :=
  match splitKindName buf with
  | some kn =>
    if kn.2 ≠ [] ∧ kn.2.all isWordChar then
      match convLookup kn.1 with
      | some c => some (kn.2, c.frag)
      | none => none
    else none
  | none => none

/-- Replacement done for an untyped placeholder `<name>` on line 107 of
src/__init__.py: every such placeholder becomes a group with the SAME fixed
name `var`, holding the string converter fragment. -/
def validateUntyped (buf : Str) : Option (Str × Frag) :=
  if buf ≠ [] ∧ buf.all isWordChar then
    match convLookup (str ("string")) with
    | some c => some (str ("var"), c.frag)
    | none => none
  else none

/-- Placeholder substitution of `re.sub` over the whole pattern: the scanner
walks the pattern, buffers from an opening angle bracket up to the next
closing one (an inner opening bracket restarts the buffer, matching the
leftmost-match behaviour of `re.sub`), and replaces a buffer accepted by
`validate` with a capture group; everything else stays literal text. -/
def scanPH (validate : Str → Option (Str × Frag)) : Option Str → Str → List PatItem
  | none, [] => []
  | none, c :: rest =>
    if c = '<' then scanPH validate (some []) rest
    else PatItem.lit c :: scanPH validate none rest
  | some buf, [] => ('<' :: buf).map PatItem.lit
  | some buf, c :: rest =>
    if c = '>' then
      match validate buf with
      | some nf => PatItem.grp nf.1 nf.2 :: scanPH validate none rest
      | none => (('<' :: buf) ++ ['>']).map PatItem.lit ++ scanPH validate none rest
    else if c = '<' then
      ('<' :: buf).map PatItem.lit ++ scanPH validate (some []) rest
    else scanPH validate (some (buf ++ [c])) rest

/-- Names of the capture groups of a compiled pattern, in order. -/
def groupNames : List PatItem → List Str
  | [] => []
  | PatItem.lit _ :: rest => groupNames rest
  | PatItem.grp n _ :: rest => n :: groupNames rest

/-- Number of capture groups. -/
def countGroups (items : List PatItem) : Nat := (groupNames items).length

/-- Pairwise distinctness of group names, as enforced by `re.compile`. -/
def dupFree : List Str → Bool
  | [] => true
  | x :: xs => !(xs.contains x) && dupFree xs

/-- Python identifier shape required of a regex group name. -/
def isIdent (s : Str) : Bool :=
  match s with
  | [] => false
  | c :: rest => (c.isAlpha || c == '_') && rest.all isWordChar

/-- Quantifier characters of the regular expression language. -/
def isQuant (c : Char) : Bool := c == '+' || c == '*' || c == '?'

/-- Characters that are special to `re` outside a character class.  The
quantifiers are included. -/
def isMetaChar (c : Char) : Bool :=
  c == '(' || c == ')' || c == '[' || c == ']' || c == '\x7b' || c == '\x7d' ||
  c == '\\' || c == '|' || c == '^' || c == '$' || c == '.' || isQuant c

/-- Atom of a compiled regex: an ordinary literal character, or a capture
group produced by the placeholder substitution. -/
inductive RAtom where
  | achar (c : Char)
  | group (name : Str) (frag : Frag)
  deriving DecidableEq, Repr

/-- Element of a compiled regex: an atom, or an ordinary character under a
greedy quantifier.  This is the fragment of the `re` language the embedding
models: the substituted patterns consist of capture groups and pattern text,
and pattern text is interpreted as ordinary characters possibly followed by
one `+`, `*` or `?`. -/
inductive RElem where
  | once (a : RAtom)
  | plus (c : Char)
  | star (c : Char)
  | opt (c : Char)
  deriving DecidableEq, Repr

/-- Quantified ordinary character. -/
def quantElem (c q : Char) : RElem :=
  if q = '+' then RElem.plus c
  else if q = '*' then RElem.star c
  else RElem.opt c

/-- Parser state: nothing pending, one atom pending (a following quantifier
would bind to it), or the previous element was already quantified. -/
inductive QState where
  | empty
  | atom (a : RAtom)
  | quantified

/-- Emits a pending atom. -/
def flushQ : QState → List RElem
  | QState.empty => []
  | QState.quantified => []
  | QState.atom a => [RElem.once a]

/-- Regex parsing done by `re.compile` on the substituted pattern, restricted
to the fragment the embedding models.  Ordinary characters and capture
groups pass through; a quantifier binds to a pending ordinary character; a
quantifier with nothing before it raises `nothing to repeat` exactly as `re`
does.  Every construct outside the fragment — any other metacharacter, a
quantified group, stacked quantifiers — yields the DISTINGUISHED error
`re.error: unmodelled regex feature`, never confusable with a real `re`
error: the theorems below stay inside the fragment, by hypothesis or by
concrete instantiation. -/
def parseRE : QState → List PatItem → Except Str (List RElem)
  | pend, [] => Except.ok (flushQ pend)
  | pend, PatItem.grp n f :: rest =>
    match parseRE (QState.atom (RAtom.group n f)) rest with
    | Except.error e => Except.error e
    | Except.ok es => Except.ok (flushQ pend ++ es)
  | pend, PatItem.lit c :: rest =>
    if isQuant c then
      match pend with
      | QState.empty => Except.error (str ("re.error: nothing to repeat"))
      | QState.quantified =>
        Except.error (str ("re.error: unmodelled regex feature"))
      | QState.atom (RAtom.group _ _) =>
        Except.error (str ("re.error: unmodelled regex feature"))
      | QState.atom (RAtom.achar a) =>
        match parseRE QState.quantified rest with
        | Except.error e => Except.error e
        | Except.ok es => Except.ok (quantElem a c :: es)
    else if isMetaChar c then
      Except.error (str ("re.error: unmodelled regex feature"))
    else
      match parseRE (QState.atom (RAtom.achar c)) rest with
      | Except.error e => Except.error e
      | Except.ok es => Except.ok (flushQ pend ++ es)

/-- Whole-pattern regex parsing, starting with nothing pending. -/
def parseRegex (items : List PatItem) : Except Str (List RElem) :=
  parseRE QState.empty items

/-- Compilation of the substituted pattern, i.e. the `re.fullmatch` call
seen as `re.compile` first: group names must be identifiers and must be
pairwise distinct (`re.error` otherwise), and the pattern text is parsed by
`parseRE`. -/
def compileWith (validate : Str → Option (Str × Frag)) (nurl : Str) :
    Except Str (List RElem) :=
  let items := scanPH validate none nurl
  let names := groupNames items
  if names.all isIdent then
    if dupFree names then parseRegex items
    else Except.error (str ("re.error: redefinition of group name"))
  else Except.error (str ("re.error: bad character in group name"))

/-- Typed compilation (line 93 of src/__init__.py). -/
def compileTyped (nurl : Str) : Except Str (List RElem) :=
  compileWith validateTyped nurl

/-- Untyped compilation (line 107 of src/__init__.py). -/
def compileUntyped (nurl : Str) : Except Str (List RElem) :=
  compileWith validateUntyped nurl

/-- Kind string of a fragment, inverse of the converter registry. -/
def kindOfFrag : Frag → Str
  | Frag.digits => str ("int")
  | Frag.nonSlash => str ("string")
  | Frag.floatF => str ("float")

/-- `re.findall(r"<(int|string|float):\w+>", nurl)` on line 98: the pattern
has exactly one group, so the result is the list of KIND strings, in order of
appearance.  Derived from the same placeholder scan as the substitution. -/
def findKinds (nurl : Str) : List Str :=
  (scanPH validateTyped none nurl).filterMap fun it =>
    match it with
    | PatItem.grp _ f => some (kindOfFrag f)
    | PatItem.lit _ => none

/-- Candidate splits of a greedy `p+` fragment: the nonempty prefixes of the
maximal run satisfying `p`, longest first (regex backtracking order). -/
def greedySplits (p : Char → Bool) (s : Str) : List (Str × Str) :=
  (List.range (s.takeWhile p).length).map fun j =>
    (s.take ((s.takeWhile p).length - j), s.drop ((s.takeWhile p).length - j))

/-- Candidate splits of one fragment, in regex backtracking order. -/
def fragSplits : Frag → Str → List (Str × Str)
  | Frag.digits, s => greedySplits Char.isDigit s
  | Frag.nonSlash, s => greedySplits (fun c => c != '/') s
  | Frag.floatF, s =>
    (greedySplits Char.isDigit s).flatMap fun pr =>
      match pr.2 with
      | '.' :: r2 =>
        (greedySplits Char.isDigit r2).map fun qr =>
          (pr.1 ++ '.' :: qr.1, qr.2)
      | _ => []

/-- Full match (`re.fullmatch`) of a compiled pattern against a path,
returning the captured substrings in group order.  Greedy with backtracking:
a group or a quantified character first consumes as much as it can, then
gives characters back; `c*` also tries consuming nothing (last), `c?` tries
consuming one character first. -/
def matchElems : List RElem → Str → Option (List Str)
  | [], s =>
    match s with
    | [] => some []
    | _ :: _ => none
  | RElem.once (RAtom.achar c) :: ps, s =>
    match s with
    | [] => none
    | x :: xs => if x = c then matchElems ps xs else none
  | RElem.once (RAtom.group _ f) :: ps, s =>
    (fragSplits f s).findSome? fun pr =>
      (matchElems ps pr.2).map fun gs => pr.1 :: gs
  | RElem.plus c :: ps, s =>
    (greedySplits (fun x => x == c) s).findSome? fun pr => matchElems ps pr.2
  | RElem.star c :: ps, s =>
    ((greedySplits (fun x => x == c) s).map Prod.snd ++ [s]).findSome? fun r =>
      matchElems ps r
  | RElem.opt c :: ps, s =>
    (match s with
      | x :: xs => if x = c then [xs, x :: xs] else [x :: xs]
      | [] => ([[]] : List Str)).findSome? fun r => matchElems ps r

/-- Handler: positional parameters in, body string out; `Except.error` models
the handler raising, with the textual description of the failure. -/
def Handler : Type := List Value → Except Str Str

/-- Terminal state of one dispatch, per the state machine of the spec:
matched with parameters, no route matched, or an uncaught exception escaped
`_handle_request` (in which case the source sends no response at all). -/
inductive Outcome where
  | matched (h : Handler) (params : List Value)
  | notFound
  | crashed (e : Str)

/-- `Star._parse_args` (lines 153-163): no question mark gives an empty map;
otherwise the query string is split on ampersands and each part containing an
equals sign is unpacked by `key, value = part.split("=")` — which raises
ValueError unless the split has exactly two pieces. -/
def parseArgs (raw : Str) : Except Str (List (Str × Str)) :=
  if hasChar '?' raw then
    (pySplit '&' (queryOf raw)).foldlM
      (fun args part =>
        if hasChar '=' part then
          match pySplit '=' part with
          | [k, v] => Except.ok (dictInsert k v args)
          | _ => Except.error (str ("ValueError: too many values to unpack"))
        else Except.ok args)
      []
  else Except.ok []

/-- Parameter extraction of the typed branch (lines 98-102): `findall`
returns kind strings, `[c[0] for c in convs]` keeps only their FIRST
character, and that one-character string is looked up in `converters` —
a KeyError for every nonempty kind list. -/
def typedParams (nurl : Str) (groups : List Str) : Except Str (List Value) :=
  (((findKinds nurl).map fun c => c.take 1).zip groups).mapM fun kv =>
    match convLookup kv.1 with
    | none => Except.error (str ("KeyError: ") ++ kv.1)
    | some conv =>
      match conv.convert kv.2 with
      | some v => Except.ok v
      | none => Except.error (str ("ValueError"))

/-- One candidate of the dispatch loop (lines 84-117), with the four match
strategies in source order: exact match, typed dynamic, untyped dynamic,
query-augmented exact.  `ok (some ps)` is a match with parameters `ps`,
`ok none` falls through to the next candidate, `error` is an uncaught
exception. -/
def tryCandidate (hasArgs : Bool) (path : Str) (url : Str) :
    Except Str (Option (List Value)) :=
  let nurl := rstripSlash url
  if path = nurl then Except.ok (some [])
  else if path ≠ ['/'] then
    match compileTyped nurl with
    | Except.error e => Except.error e
    | Except.ok tpat =>
      match matchElems tpat path with
      | some groups =>
        match typedParams nurl groups with
        | Except.error e => Except.error e
        | Except.ok ps => Except.ok (some ps)
      | none =>
        match compileUntyped nurl with
        | Except.error e => Except.error e
        | Except.ok upat =>
          match matchElems upat path with
          | some groups => Except.ok (some (groups.map Value.strV))
          | none =>
            Except.ok (if hasArgs ∧ path = nurl then some [] else none)
  else Except.ok (if hasArgs ∧ path = nurl then some [] else none)

/-- Scan of the route table in insertion order, stopping at the first
candidate that matches. -/
def scanRoutes (path : Str) (hasArgs : Bool) : List (Str × Handler) → Outcome
  | [] => Outcome.notFound
  | (url, func) :: rest =>
    match tryCandidate hasArgs path url with
    | Except.error e => Outcome.crashed e
    | Except.ok (some params) => Outcome.matched func params
    | Except.ok none => scanRoutes path hasArgs rest

/-- `Star._handle_request` up to the choice of response: normalise the path,
parse the query arguments (which can itself raise), then scan the table. -/
def handleRequest (routes : List (Str × Handler)) (raw : Str) : Outcome :=
  let path := normalizePath raw
  match parseArgs raw with
  | Except.error e => Outcome.crashed e
  | Except.ok args => scanRoutes path (!args.isEmpty) routes

/-- Prefix test used by the replacement helper. -/
def leadsWith : Str → Str → Bool
  | [], _ => true
  | _ :: _, [] => false
  | a :: as, b :: bs => a == b && leadsWith as bs

theorem leadsWith_length : ∀ pat s : Str, leadsWith pat s = true → pat.length ≤ s.length := by
  intro pat
  induction pat with
  | nil => intro s _; exact Nat.zero_le _
  | cons a as ih =>
    intro s h
    cases s with
    | nil => simp [leadsWith] at h
    | cons b bs =>
      simp only [leadsWith, Bool.and_eq_true] at h
      simpa [List.length_cons] using Nat.succ_le_succ (ih bs h.2)

/-- Worker for `replaceAll`: the first argument is the number of characters
still to be skipped because they belong to an occurrence that has already
been replaced. -/
def replaceAux (pat rep : Str) : Nat → Str → Str
  | _ + 1, [] => []
  | n + 1, _ :: rest => replaceAux pat rep n rest
  | 0, [] => []
  | 0, c :: rest =>
    if pat ≠ [] ∧ leadsWith pat (c :: rest) = true then
      rep ++ replaceAux pat rep (pat.length - 1) rest
    else c :: replaceAux pat rep 0 rest

/-- Python `s.replace(old, new)` for a nonempty `old`: non-overlapping
replacement left to right, the scan continuing after the inserted text.
(An empty `old` never occurs here: placeholders are nonempty.) -/
def replaceAll (pat rep : Str) (s : Str) : Str :=
  replaceAux pat rep 0 s

/-- Literal placeholder text searched by `render`: two opening braces, a
space, the key, a space, two closing braces. -/
def placeholderOf (key : Str) : Str :=
  str ("\x7b\x7b ") ++ key ++ str (" \x7d\x7d")

/-- `render` of src/utils.py, on the template CONTENT: each argument key has
every occurrence of its placeholder replaced by the value, in argument
order. -/
def render (content : Str) (args : List (Str × Str)) : Str :=
  args.foldl (fun acc kv => replaceAll (placeholderOf kv.1) kv.2 acc) content

/-- Response value: protocol status plus body text. -/
structure HttpResponse where
  status : Nat
  body : Str
  deriving DecidableEq

/-- `Star._send_response` (lines 134-151): status 200 and headers are sent
BEFORE the handler runs; a handler exception is caught and replaced by the
rendered 500 error page, with the exception text as the message. -/
def sendResponse (tpl : Str) (func : Handler) (params : List Value) :
    HttpResponse :=
  { status := 200
    body :=
      match func params with
      | Except.ok r => r
      | Except.error e =>
        render tpl
          [(str ("title"), str ("500 Internal Server Error")),
           (str ("message"), e)] }

/-- Whole request handling: dispatch, then either the 200 response of the
matched handler, the rendered 404 page (lines 123-132), or — when an
exception escaped `_handle_request` — no response at all (`Except.error`). -/
def serve (tpl : Str) (routes : List (Str × Handler)) (raw : Str) :
    Except Str HttpResponse :=
  match handleRequest routes raw with
  | Outcome.crashed e => Except.error e
  | Outcome.matched h params => Except.ok (sendResponse tpl h params)
  | Outcome.notFound =>
    Except.ok
      { status := 404
        body :=
          render tpl
            [(str ("title"), str ("404 Not Found")),
             (str ("message"), str ("Page Not Found"))] }

/-- State of a `Star` application: the two per-method route tables. -/
structure StarApp where
  get_routes : List (Str × Handler)
  post_routes : List (Str × Handler)

/-- Registration of one (url, method, handler) triple, the body of the loop in
`Star.route` (lines 32-43): the method name is upper-cased, the url key is
stored with trailing slashes stripped, and an unknown method raises
`ValueError(f"Invalid method: {m}")`. -/
def routeOne (app : StarApp) (url : Str) (m : Str) (func : Handler) :
    Except Str StarApp :=
  let mU := strUpper m
  if mU = str ("GET") then
    Except.ok { app with get_routes := dictInsert (rstripSlash url) func app.get_routes }
  else if mU = str ("POST") then
    Except.ok { app with post_routes := dictInsert (rstripSlash url) func app.post_routes }
  else Except.error (str ("Invalid method: ") ++ m)

/-- Specification-side restatement of query parsing, worded from the amended
claim: split the query string on ampersands; a part with no equals sign is
dropped silently; a part with exactly one equals sign maps the text before
the sign to the text after it (no decoding, later parts overwriting earlier
ones); a part with two or more equals signs makes parsing fail with an
unpacking error. -/
def specParseArgs (raw : Str) : Except Str (List (Str × Str)) :=
  if hasChar '?' raw then
    (pySplit '&' (queryOf raw)).foldlM
      (fun args part =>
        if countChar '=' part = 0 then Except.ok args
        else if countChar '=' part = 1 then
          Except.ok
            (dictInsert (part.takeWhile fun c => c != '=')
              ((part.dropWhile fun c => c != '=').tail) args)
        else Except.error (str ("ValueError: too many values to unpack")))
      []
  else Except.ok []

/-- Characters conceptually already consumed in a given scanner mode. -/
def modeChars : Option Str → Str
  | none => []
  | some buf => '<' :: buf

deriving instance DecidableEq for Except

/-- Handler fixture that returns a fixed body. -/
def hOk : Handler := fun _ => Except.ok (str ("ok"))

/-- Handler fixture that raises. -/
def hBoom : Handler := fun _ => Except.error (str ("boom"))

/-- Application fixture with empty route tables. -/
def app0 : StarApp := { get_routes := [], post_routes := [] }

/-! Lemmas about the character-level helpers. -/

theorem hasChar_eq_false {c : Char} {l : Str} (h : c ∉ l) : hasChar c l = false := by
  induction l with
  | nil => rfl
  | cons x xs ih =>
    simp only [List.mem_cons, not_or] at h
    simp [hasChar, ih h.2, beq_iff_eq]
    exact fun e => h.1 e.symm

theorem countChar_pos_of_hasChar {c : Char} {l : Str} (h : hasChar c l = true) :
    0 < countChar c l := by
  induction l with
  | nil => simp [hasChar] at h
  | cons x xs ih =>
    by_cases hx : x = c
    · simp [countChar, hx]
    · simp only [hasChar, Bool.or_eq_true, beq_iff_eq] at h
      rcases h with h | h
      · exact absurd h hx
      · simp only [countChar, if_neg hx, Nat.zero_add]
        exact ih h

theorem hasChar_of_countChar_pos {c : Char} {l : Str} (h : 0 < countChar c l) :
    hasChar c l = true := by
  induction l with
  | nil => simp [countChar] at h
  | cons x xs ih =>
    by_cases hx : x = c
    · simp [hasChar, hx]
    · simp only [countChar, if_neg hx, Nat.zero_add] at h
      simp [hasChar, ih h]

theorem pySplit_ne_nil (sep : Char) (l : Str) : pySplit sep l ≠ [] := by
  induction l with
  | nil => simp [pySplit]
  | cons x xs ih =>
    by_cases hx : x = sep
    · simp [pySplit, hx]
    · cases e : pySplit sep xs with
      | nil => exact absurd e ih
      | cons s ss => simp [pySplit, hx, e]

theorem pySplit_length (sep : Char) (l : Str) :
    (pySplit sep l).length = countChar sep l + 1 := by
  induction l with
  | nil => simp [pySplit, countChar]
  | cons x xs ih =>
    by_cases hx : x = sep
    · simp [pySplit, hx, countChar, ih]
      omega
    · cases e : pySplit sep xs with
      | nil => exact absurd e (pySplit_ne_nil sep xs)
      | cons s ss =>
        have := ih
        rw [e] at this
        simp only [List.length_cons] at this
        simp [pySplit, hx, e, countChar, this]

theorem pySplit_count_zero {sep : Char} {l : Str} (h : countChar sep l = 0) :
    pySplit sep l = [l] := by
  induction l with
  | nil => rfl
  | cons x xs ih =>
    by_cases hx : x = sep
    · simp [countChar, hx] at h
    · simp only [countChar, if_neg hx, Nat.zero_add] at h
      simp [pySplit, hx, ih h]

theorem pySplit_count_one {sep : Char} {l : Str} (h : countChar sep l = 1) :
    pySplit sep l =
      [l.takeWhile (fun c => c != sep), (l.dropWhile (fun c => c != sep)).tail] := by
  induction l with
  | nil => simp [countChar] at h
  | cons x xs ih =>
    by_cases hx : x = sep
    · have h0 : countChar sep xs = 0 := by
        simp [countChar, hx] at h
        omega
      subst hx
      simp [pySplit, pySplit_count_zero h0, List.takeWhile_cons, List.dropWhile_cons]
    · simp only [countChar, if_neg hx, Nat.zero_add] at h
      have hne : (x != sep) = true := by
        simp [bne_iff_ne]
        exact hx
      simp [pySplit, hx, ih h, List.takeWhile_cons, List.dropWhile_cons, hne]

/-! Lemmas about trailing-slash stripping. -/

theorem head_dropWhile_false {p : Char → Bool} {l : Str} {a : Char}
    (h : (l.dropWhile p).head? = some a) : p a = false := by
  induction l with
  | nil => simp [List.dropWhile] at h
  | cons x xs ih =>
    by_cases hx : p x
    · rw [List.dropWhile_cons_of_pos hx] at h
      exact ih h
    · rw [List.dropWhile_cons_of_neg hx] at h
      simp only [List.head?_cons, Option.some.injEq] at h
      rw [← h]
      simpa using hx

theorem rstripSlash_decomp (s : Str) :
    ∃ k, s = rstripSlash s ++ List.replicate k '/' := by
  refine ⟨(s.reverse.takeWhile (fun c => c == '/')).length, ?_⟩
  have hall : ∀ b ∈ s.reverse.takeWhile (fun c => c == '/'), b = '/' := by
    intro b hb
    have := List.mem_takeWhile_imp hb
    simpa using this
  have hrep := List.eq_replicate_of_mem hall
  have hrev : (s.reverse.takeWhile (fun c => c == '/')).reverse
      = List.replicate (s.reverse.takeWhile (fun c => c == '/')).length '/' := by
    rw [hrep, List.reverse_replicate, List.length_replicate]
  conv_lhs => rw [← s.reverse_reverse,
    ← List.takeWhile_append_dropWhile (fun c => c == '/') s.reverse,
    List.reverse_append, hrev]
  rfl

theorem rstripSlash_getLast (s : Str) : (rstripSlash s).getLast? ≠ some '/' := by
  intro h
  unfold rstripSlash at h
  rw [List.getLast?_reverse] at h
  have := head_dropWhile_false h
  simp at this

theorem rstripSlash_append (s : Str) : rstripSlash (s ++ ['/']) = rstripSlash s := by
  unfold rstripSlash
  rw [List.reverse_append]
  simp [List.dropWhile_cons]

theorem dropWhile_idem (p : Char → Bool) (l : Str) :
    (l.dropWhile p).dropWhile p = l.dropWhile p := by
  cases e : l.dropWhile p with
  | nil => simp
  | cons a t =>
    have ha : p a = false := head_dropWhile_false (by rw [e]; rfl)
    simp [List.dropWhile_cons, ha]

theorem rstripSlash_idem (s : Str) : rstripSlash (rstripSlash s) = rstripSlash s := by
  unfold rstripSlash
  rw [List.reverse_reverse, dropWhile_idem]

theorem rstripSlash_ne_slash (s : Str) : rstripSlash s ≠ ['/'] := by
  intro h
  exact rstripSlash_getLast s (by rw [h]; rfl)

theorem stripQuery_eq_self {l : Str} (h : '?' ∉ l) : stripQuery l = l := by
  unfold stripQuery
  induction l with
  | nil => rfl
  | cons x xs ih =>
    simp only [List.mem_cons, not_or] at h
    have hx : (x != '?') = true := by
      simp [bne_iff_ne]
      exact fun e => h.1 e.symm
    simp [List.takeWhile_cons, hx, ih h.2]

theorem parseArgs_no_query {raw : Str} (h : '?' ∉ raw) :
    parseArgs raw = Except.ok [] := by
  simp [parseArgs, hasChar_eq_false h]

/-! Lemmas about the dict model. -/

theorem dictInsert_dictInsert {α : Type} (k : Str) (v1 v2 : α) (d : List (Str × α)) :
    dictInsert k v2 (dictInsert k v1 d) = dictInsert k v2 d := by
  induction d with
  | nil => simp [dictInsert]
  | cons e rest ih =>
    obtain ⟨k2, w⟩ := e
    by_cases hk : k2 = k
    · simp [dictInsert, hk]
    · simp [dictInsert, hk, ih]

theorem keys_dictInsert_indep {α : Type} (k : Str) (v1 v2 : α) (d : List (Str × α)) :
    (dictInsert k v1 d).map Prod.fst = (dictInsert k v2 d).map Prod.fst := by
  induction d with
  | nil => simp [dictInsert]
  | cons e rest ih =>
    obtain ⟨k2, w⟩ := e
    by_cases hk : k2 = k
    · simp [dictInsert, hk]
    · simp [dictInsert, hk, ih]

theorem lookupD_dictInsert {α : Type} (k : Str) (v : α) (d : List (Str × α)) :
    lookupD k (dictInsert k v d) = some v := by
  induction d with
  | nil => simp [dictInsert, lookupD]
  | cons e rest ih =>
    obtain ⟨k2, w⟩ := e
    by_cases hk : k2 = k
    · simp [dictInsert, lookupD, hk]
    · simp [dictInsert, lookupD, hk, ih]

/-! Lemmas about the placeholder scanner and the matcher. -/

theorem matchElems_lit : ∀ (s path : Str),
    matchElems (s.map fun c => RElem.once (RAtom.achar c)) path
      = if path = s then some [] else none := by
  intro s
  induction s with
  | nil =>
    intro path
    cases path with
    | nil => simp [matchElems]
    | cons x xs => simp [matchElems]
  | cons c cs ih =>
    intro path
    cases path with
    | nil => simp [matchElems]
    | cons x xs =>
      simp only [List.map_cons, matchElems]
      by_cases hx : x = c
      · subst hx
        rw [if_pos rfl, ih xs]
        by_cases h2 : xs = cs
        · simp [h2]
        · simp [h2]
      · rw [if_neg hx]
        have hne : (x :: xs : Str) ≠ c :: cs := by simp [hx]
        simp [hne]

theorem parseRE_ordinary :
    ∀ (l : Str) (pend : QState), (∀ c ∈ l, isMetaChar c = false) →
      parseRE pend (l.map PatItem.lit)
        = Except.ok (flushQ pend ++ l.map fun c => RElem.once (RAtom.achar c)) := by
  intro l
  induction l with
  | nil =>
    intro pend _
    simp [parseRE]
  | cons c rest ih =>
    intro pend h
    have hc : isMetaChar c = false := h c (List.mem_cons_self _ _)
    have hq : isQuant c = false := by
      cases e : isQuant c
      · rfl
      · exfalso
        rw [show isMetaChar c = true by simp [isMetaChar, e]] at hc
        cases hc
    have hrest : ∀ c2 ∈ rest, isMetaChar c2 = false :=
      fun c2 m => h c2 (List.mem_cons_of_mem _ m)
    simp only [List.map_cons, parseRE, hq, hc, Bool.false_eq_true, if_false,
      ih (QState.atom (RAtom.achar c)) hrest]
    simp [flushQ]

theorem parseRegex_ordinary {l : Str} (h : ∀ c ∈ l, isMetaChar c = false) :
    parseRegex (l.map PatItem.lit)
      = Except.ok (l.map fun c => RElem.once (RAtom.achar c)) := by
  unfold parseRegex
  rw [parseRE_ordinary l QState.empty h]
  rfl

theorem scanPH_allLit (v : Str → Option (Str × Frag)) :
    ∀ (s : Str) (mode : Option Str),
      (∀ it ∈ scanPH v mode s, PatItem.isLit it = true) →
      scanPH v mode s = (modeChars mode ++ s).map PatItem.lit := by
  intro s
  induction s with
  | nil =>
    intro mode _
    cases mode with
    | none => rfl
    | some buf => simp [scanPH, modeChars]
  | cons c rest ih =>
    intro mode h
    cases mode with
    | none =>
      by_cases hc : c = '<'
      · subst hc
        have hstep : scanPH v none ('<' :: rest) = scanPH v (some []) rest := by
          simp [scanPH]
        rw [hstep] at h ⊢
        rw [ih (some []) h]
        rfl
      · have hstep : scanPH v none (c :: rest)
            = PatItem.lit c :: scanPH v none rest := by
          simp [scanPH, hc]
        rw [hstep] at h ⊢
        have h2 : ∀ it ∈ scanPH v none rest, PatItem.isLit it = true :=
          fun it m => h it (List.mem_cons_of_mem _ m)
        rw [ih none h2]
        rfl
    | some buf =>
      by_cases hc : c = '>'
      · subst hc
        cases hv : v buf with
        | some nf =>
          have hstep : scanPH v (some buf) ('>' :: rest)
              = PatItem.grp nf.1 nf.2 :: scanPH v none rest := by
            simp [scanPH, hv]
          rw [hstep] at h
          have := h _ (List.mem_cons_self _ _)
          simp [PatItem.isLit] at this
        | none =>
          have hstep : scanPH v (some buf) ('>' :: rest)
              = (('<' :: buf) ++ ['>']).map PatItem.lit ++ scanPH v none rest := by
            simp [scanPH, hv]
          rw [hstep] at h ⊢
          have h2 : ∀ it ∈ scanPH v none rest, PatItem.isLit it = true :=
            fun it m => h it (List.mem_append_right _ m)
          rw [ih none h2]
          rw [← List.map_append]
          simp [modeChars, List.append_assoc]
      · by_cases hc2 : c = '<'
        · subst hc2
          have hstep : scanPH v (some buf) ('<' :: rest)
              = ('<' :: buf).map PatItem.lit ++ scanPH v (some []) rest := by
            simp [scanPH, hc]
          rw [hstep] at h ⊢
          have h2 : ∀ it ∈ scanPH v (some []) rest, PatItem.isLit it = true :=
            fun it m => h it (List.mem_append_right _ m)
          rw [ih (some []) h2]
          rw [← List.map_append]
          simp [modeChars, List.append_assoc]
        · have hstep : scanPH v (some buf) (c :: rest)
              = scanPH v (some (buf ++ [c])) rest := by
            simp [scanPH, hc, hc2]
          rw [hstep] at h ⊢
          rw [ih (some (buf ++ [c])) h]
          simp [modeChars, List.append_assoc]

theorem groupNames_map_lit (l : Str) : groupNames (l.map PatItem.lit) = [] := by
  induction l with
  | nil => rfl
  | cons c cs ih => simpa [groupNames] using ih

theorem groupNames_of_allLit {items : List PatItem}
    (h : ∀ it ∈ items, PatItem.isLit it = true) : groupNames items = [] := by
  induction items with
  | nil => rfl
  | cons it rest ih =>
    cases it with
    | lit c =>
      simp only [groupNames]
      exact ih fun it2 m => h it2 (List.mem_cons_of_mem _ m)
    | grp n f =>
      have := h _ (List.mem_cons_self _ _)
      simp [PatItem.isLit] at this

theorem groupNames_append (a b : List PatItem) :
    groupNames (a ++ b) = groupNames a ++ groupNames b := by
  induction a with
  | nil => rfl
  | cons it rest ih =>
    cases it with
    | lit c => simpa [groupNames] using ih
    | grp n f => simpa [groupNames] using ih

theorem validateUntyped_name {buf : Str} {nf : Str × Frag}
    (h : validateUntyped buf = some nf) : nf.1 = str ("var") := by
  by_cases hb : buf ≠ [] ∧ buf.all isWordChar
  · have he : validateUntyped buf = some (str ("var"), Frag.nonSlash) := by
      unfold validateUntyped
      rw [if_pos hb]
      rfl
    rw [he] at h
    simp only [Option.some.injEq] at h
    rw [← h]
  · have he : validateUntyped buf = none := by
      unfold validateUntyped
      rw [if_neg hb]
    rw [he] at h
    cases h

theorem scanPH_untyped_names :
    ∀ (s : Str) (mode : Option Str) (n : Str),
      n ∈ groupNames (scanPH validateUntyped mode s) → n = str ("var") := by
  intro s
  induction s with
  | nil =>
    intro mode n h
    cases mode with
    | none => simp [scanPH, groupNames] at h
    | some buf =>
      rw [scanPH, groupNames_map_lit] at h
      simp at h
  | cons c rest ih =>
    intro mode n h
    cases mode with
    | none =>
      by_cases hc : c = '<'
      · subst hc
        have hstep : scanPH validateUntyped none ('<' :: rest)
            = scanPH validateUntyped (some []) rest := by
          simp [scanPH]
        rw [hstep] at h
        exact ih (some []) n h
      · have hstep : scanPH validateUntyped none (c :: rest)
            = PatItem.lit c :: scanPH validateUntyped none rest := by
          simp [scanPH, hc]
        rw [hstep] at h
        simp only [groupNames] at h
        exact ih none n h
    | some buf =>
      by_cases hc : c = '>'
      · subst hc
        cases hv : validateUntyped buf with
        | some nf =>
          have hstep : scanPH validateUntyped (some buf) ('>' :: rest)
              = PatItem.grp nf.1 nf.2 :: scanPH validateUntyped none rest := by
            simp [scanPH, hv]
          rw [hstep] at h
          simp only [groupNames, List.mem_cons] at h
          rcases h with h | h
          · rw [h]
            exact validateUntyped_name hv
          · exact ih none n h
        | none =>
          have hstep : scanPH validateUntyped (some buf) ('>' :: rest)
              = (('<' :: buf) ++ ['>']).map PatItem.lit
                  ++ scanPH validateUntyped none rest := by
            simp [scanPH, hv]
          rw [hstep, groupNames_append, groupNames_map_lit] at h
          simp only [List.nil_append] at h
          exact ih none n h
      · by_cases hc2 : c = '<'
        · subst hc2
          have hstep : scanPH validateUntyped (some buf) ('<' :: rest)
              = ('<' :: buf).map PatItem.lit
                  ++ scanPH validateUntyped (some []) rest := by
            simp [scanPH, hc]
          rw [hstep, groupNames_append, groupNames_map_lit] at h
          simp only [List.nil_append] at h
          exact ih (some []) n h
        · have hstep : scanPH validateUntyped (some buf) (c :: rest)
              = scanPH validateUntyped (some (buf ++ [c])) rest := by
            simp [scanPH, hc, hc2]
          rw [hstep] at h
          exact ih (some (buf ++ [c])) n h

theorem scanRoutes_append {path : Str} {ha : Bool} {pre rest : List (Str × Handler)}
    (h : ∀ u f, (u, f) ∈ pre → tryCandidate ha path u = Except.ok none) :
    scanRoutes path ha (pre ++ rest) = scanRoutes path ha rest := by
  induction pre with
  | nil => rfl
  | cons e pre2 ih =>
    obtain ⟨u, f⟩ := e
    rw [List.cons_append, scanRoutes, h u f (List.mem_cons_self _ _)]
    exact ih fun u2 f2 m => h u2 f2 (List.mem_cons_of_mem _ m)


/-! Claim theorems. -/

/-- C1: the spec says a route for `/user/<int:id>` dispatches `/user/42` with
the integer 42, and lets `/user/abc` fall through.  The code instead crashes
on `/user/42`: `re.findall` with one group returns the kind strings, the
comprehension keeps only their first character, and `converters["i"]` raises
an uncaught KeyError.  `/user/abc` does fall through to the 404 state as the
spec says. -/
theorem star_c1_typed_route_crash (h : Handler) :
    handleRequest [(str ("/user/<int:id>"), h)] (str ("/user/42"))
        = Outcome.crashed (str ("KeyError: i")) ∧
      handleRequest [(str ("/user/<int:id>"), h)] (str ("/user/abc"))
        = Outcome.notFound :=
  ⟨rfl, rfl⟩

/-- C2 counterexample: normalization of `/a//` yields `/a`, not the `/a/`
the claim requires — Python `rstrip("/")` removes the whole run of trailing
slashes, not exactly one. -/
theorem star_c2_counterexample :
    normalizePath (str ("/a//")) = str ("/a") ∧
      normalizePath (str ("/a//")) ≠ str ("/a/") :=
  ⟨rfl, by decide⟩

/-- C2 amended: normalization strips the entire maximal run of trailing
slashes (so the result never ends in a slash), and never affects interior
characters: the query-stripped raw path is the normalized path followed by
some number of slashes. -/
theorem star_c2_rstrip_all_trailing (raw : Str) :
    (∃ k, stripQuery raw = normalizePath raw ++ List.replicate k '/') ∧
      (normalizePath raw).getLast? ≠ some '/' :=
  ⟨rstripSlash_decomp (stripQuery raw), rstripSlash_getLast (stripQuery raw)⟩

/-- C6: a route for the untyped pattern `/item/<slug>` dispatches
`/item/red-shoes` with the single raw string parameter `red-shoes`, and
`/item/a/b` does not match, because the `[^/]+` fragment excludes the
slash. -/
theorem star_c6_untyped_single (h : Handler) :
    handleRequest [(str ("/item/<slug>"), h)] (str ("/item/red-shoes"))
        = Outcome.matched h [Value.strV (str ("red-shoes"))] ∧
      handleRequest [(str ("/item/<slug>"), h)] (str ("/item/a/b"))
        = Outcome.notFound :=
  ⟨rfl, rfl⟩

/-- C7: registering the same key twice behaves like registering only the
second handler; the key keeps its original position in the iteration order
(the key list is unchanged by the second registration); lookup yields the
second handler; and dispatch against the twice-registered table is
identical to dispatch against the table with only the second handler. -/
theorem star_c7_reregistration (d : List (Str × Handler)) (k : Str)
    (h1 h2 : Handler) :
    dictInsert k h2 (dictInsert k h1 d) = dictInsert k h2 d ∧
    (dictInsert k h2 (dictInsert k h1 d)).map Prod.fst
        = (dictInsert k h1 d).map Prod.fst ∧
    lookupD k (dictInsert k h2 (dictInsert k h1 d)) = some h2 ∧
    ∀ raw, handleRequest (dictInsert k h2 (dictInsert k h1 d)) raw
        = handleRequest (dictInsert k h2 d) raw := by
  refine ⟨dictInsert_dictInsert k h1 h2 d, ?_, ?_, ?_⟩
  · rw [dictInsert_dictInsert]
    exact keys_dictInsert_indep k h2 h1 d
  · rw [dictInsert_dictInsert]
    exact lookupD_dictInsert k h2 d
  · intro raw
    rw [dictInsert_dictInsert]

/-- C8: when the scan of the table ends with no match, the response has
status 404 and its body is the error page rendered with title
`404 Not Found` and message `Page Not Found`; no handler result enters the
response. -/
theorem star_c8_not_found (tpl : Str) (routes : List (Str × Handler))
    (raw : Str) (hnf : handleRequest routes raw = Outcome.notFound) :
    serve tpl routes raw =
      Except.ok
        { status := 404
          body := render tpl
            [(str ("title"), str ("404 Not Found")),
             (str ("message"), str ("Page Not Found"))] } := by
  unfold serve
  rw [hnf]

/-- C8 witness: a request against an empty table. -/
theorem star_c8_witness :
    serve (str ("T")) [] (str ("/missing")) =
      Except.ok
        { status := 404
          body := render (str ("T"))
            [(str ("title"), str ("404 Not Found")),
             (str ("message"), str ("Page Not Found"))] } :=
  star_c8_not_found (str ("T")) [] (str ("/missing")) rfl

/-- C4: when the matched handler raises, the response still has protocol
status 200 (the status line is fixed before the handler is invoked), and the
body is the error page rendered with title `500 Internal Server Error` and
the textual description of the failure as the message. -/
theorem star_c4_handler_error_response (tpl : Str)
    (routes : List (Str × Handler)) (raw : Str) (h : Handler)
    (params : List Value) (e : Str)
    (hm : handleRequest routes raw = Outcome.matched h params)
    (he : h params = Except.error e) :
    serve tpl routes raw =
      Except.ok
        { status := 200
          body := render tpl
            [(str ("title"), str ("500 Internal Server Error")),
             (str ("message"), e)] } := by
  have h200 : serve tpl routes raw = Except.ok (sendResponse tpl h params) := by
    unfold serve
    rw [hm]
  rw [h200]
  unfold sendResponse
  rw [he]

/-- C4 witness: a handler that always raises, matched exactly. -/
theorem star_c4_witness :
    serve (str ("T")) [(str ("/boom"), hBoom)] (str ("/boom")) =
      Except.ok
        { status := 200
          body := render (str ("T"))
            [(str ("title"), str ("500 Internal Server Error")),
             (str ("message"), str ("boom"))] } :=
  star_c4_handler_error_response (str ("T")) [(str ("/boom"), hBoom)]
    (str ("/boom")) hBoom [] (str ("boom")) rfl rfl

/-- C9: method names are upper-cased before comparison, so any casing of
`get` or `post` registers in the corresponding table (with the pattern key
stripped of trailing slashes); every other method name makes the
registration call fail with `Invalid method: <name>`, returning no updated
application state, so serving state is untouched. -/
theorem star_c9_method_validation (app : StarApp) (url m : Str) (f : Handler) :
    (strUpper m = str ("GET") →
      routeOne app url m f = Except.ok
        { app with get_routes := dictInsert (rstripSlash url) f app.get_routes }) ∧
    (strUpper m = str ("POST") →
      routeOne app url m f = Except.ok
        { app with post_routes := dictInsert (rstripSlash url) f app.post_routes }) ∧
    (strUpper m ≠ str ("GET") → strUpper m ≠ str ("POST") →
      routeOne app url m f = Except.error (str ("Invalid method: ") ++ m)) := by
  refine ⟨?_, ?_, ?_⟩
  · intro hm
    simp only [routeOne]
    rw [if_pos hm]
  · intro hm
    have hne : strUpper m ≠ str ("GET") := by
      rw [hm]
      decide
    simp only [routeOne]
    rw [if_neg hne, if_pos hm]
  · intro h1 h2
    simp only [routeOne]
    rw [if_neg h1, if_neg h2]

/-- C9 witness: `get`, `Post` and `PUT` at concrete inputs. -/
theorem star_c9_witness :
    routeOne app0 (str ("/h")) (str ("get")) hOk = Except.ok
        { app0 with
          get_routes := dictInsert (rstripSlash (str ("/h"))) hOk app0.get_routes } ∧
    routeOne app0 (str ("/h")) (str ("Post")) hOk = Except.ok
        { app0 with
          post_routes := dictInsert (rstripSlash (str ("/h"))) hOk app0.post_routes } ∧
    routeOne app0 (str ("/h")) (str ("PUT")) hOk
        = Except.error (str ("Invalid method: ") ++ str ("PUT")) :=
  ⟨(star_c9_method_validation app0 (str ("/h")) (str ("get")) hOk).1 (by decide),
   (star_c9_method_validation app0 (str ("/h")) (str ("Post")) hOk).2.1 (by decide),
   (star_c9_method_validation app0 (str ("/h")) (str ("PUT")) hOk).2.2
     (by decide) (by decide)⟩

/-- C5: for a registered placeholder-free pattern P (stored under its
trailing-slash-stripped key), a request to P and a request to P with one more
trailing slash both dispatch to its handler with no parameters, provided the
earlier candidates in the table do not match. -/
theorem star_c5_trailing_slash_equiv (P : Str) (H : Handler)
    (pre post : List (Str × Handler))
    (hq : '?' ∉ P) (_hph : '<' ∉ P)
    (hpre : ∀ u f, (u, f) ∈ pre →
      tryCandidate false (rstripSlash P) u = Except.ok none) :
    handleRequest (pre ++ (rstripSlash P, H) :: post) P = Outcome.matched H [] ∧
    handleRequest (pre ++ (rstripSlash P, H) :: post) (P ++ ['/'])
        = Outcome.matched H [] := by
  have key : ∀ raw : Str, '?' ∉ raw → normalizePath raw = rstripSlash P →
      handleRequest (pre ++ (rstripSlash P, H) :: post) raw
        = Outcome.matched H [] := by
    intro raw hraw hnorm
    have hargs : parseArgs raw = Except.ok [] := parseArgs_no_query hraw
    have h1 : handleRequest (pre ++ (rstripSlash P, H) :: post) raw
        = scanRoutes (normalizePath raw) false
            (pre ++ (rstripSlash P, H) :: post) := by
      unfold handleRequest
      rw [hargs]
      rfl
    rw [h1, hnorm, scanRoutes_append hpre]
    have htc : tryCandidate false (rstripSlash P) (rstripSlash P)
        = Except.ok (some []) := by
      simp [tryCandidate, rstripSlash_idem]
    simp [scanRoutes, htc]
  have hq2 : '?' ∉ P ++ ['/'] := by
    intro m
    rcases List.mem_append.mp m with m | m
    · exact hq m
    · simp at m
  refine ⟨key P hq ?_, key (P ++ ['/']) hq2 ?_⟩
  · unfold normalizePath
    rw [stripQuery_eq_self hq]
  · unfold normalizePath
    rw [stripQuery_eq_self hq2, rstripSlash_append]

/-- C5 witness: the pattern `/about` as the only route. -/
theorem star_c5_witness :
    handleRequest ([] ++ (rstripSlash (str ("/about")), hOk) :: []) (str ("/about"))
        = Outcome.matched hOk [] ∧
      handleRequest ([] ++ (rstripSlash (str ("/about")), hOk) :: [])
          (str ("/about") ++ ['/']) = Outcome.matched hOk [] :=
  star_c5_trailing_slash_equiv (str ("/about")) hOk [] [] (by decide) (by decide)
    (fun u f m => absurd m (List.not_mem_nil _))

/-- Pointwise-equal step functions give equal Except folds. -/
theorem except_foldlM_congr {α β : Type} {f g : β → α → Except Str β}
    (h : ∀ b a, f b a = g b a) :
    ∀ (l : List α) (init : β), l.foldlM f init = l.foldlM g init := by
  intro l
  induction l with
  | nil => intro init; rfl
  | cons x xs ih =>
    intro init
    rw [List.foldlM_cons, List.foldlM_cons, h init x]
    cases g init x with
    | error e => rfl
    | ok b2 =>
      show (Except.ok b2 >>= fun b => xs.foldlM f b)
          = (Except.ok b2 >>= fun b => xs.foldlM g b)
      rw [show (Except.ok b2 >>= fun b => xs.foldlM f b) = xs.foldlM f b2 from rfl,
        show (Except.ok b2 >>= fun b => xs.foldlM g b) = xs.foldlM g b2 from rfl]
      exact ih b2

/-- C3 counterexample: the claim says each query part is split on the FIRST
equals sign only, so `/p?a=b=c` should give the argument `a = "b=c"`; the
code does `key, value = part.split("=")`, which raises a ValueError on that
part instead. -/
theorem star_c3_counterexample :
    parseArgs (str ("/p?a=b=c"))
        = Except.error (str ("ValueError: too many values to unpack")) ∧
      parseArgs (str ("/p?a=b=c")) ≠ Except.ok [(str ("a"), str ("b=c"))] :=
  ⟨rfl, by decide⟩

/-- C3 amended: query parsing splits on ampersands and classifies each part
by its number of equals signs: none — dropped silently; exactly one — the
text before it maps to the text after it, later parts overwriting earlier
ones, with no decoding; two or more — the whole parse fails with an
unpacking error.  `specParseArgs` is that amended wording; the code agrees
with it on every raw path. -/
theorem star_c3_parse_split_refines (raw : Str) :
    parseArgs raw = specParseArgs raw := by
  unfold parseArgs specParseArgs
  by_cases hq : hasChar '?' raw
  · rw [if_pos hq, if_pos hq]
    refine except_foldlM_congr ?_ _ _
    intro b a
    by_cases h0 : countChar '=' a = 0
    · have hhc : hasChar '=' a = false := by
        cases e : hasChar '=' a
        · rfl
        · exfalso
          have := countChar_pos_of_hasChar e
          omega
      simp [hhc, h0]
    · by_cases h1 : countChar '=' a = 1
      · have hhc : hasChar '=' a = true := hasChar_of_countChar_pos (by omega)
        simp [hhc, h0, h1, pySplit_count_one h1]
      · have hhc : hasChar '=' a = true := hasChar_of_countChar_pos (by omega)
        have hlen := pySplit_length '=' a
        cases e : pySplit '=' a with
        | nil => exact absurd e (pySplit_ne_nil _ _)
        | cons k t =>
          cases t with
          | nil =>
            rw [e] at hlen
            simp at hlen
            omega
          | cons v t2 =>
            cases t2 with
            | nil =>
              rw [e] at hlen
              simp at hlen
              omega
            | cons w t3 =>
              simp [hhc, h0, h1, e]
  · rw [if_neg hq, if_neg hq]

/-- C10 counterexample: the claim has no restriction on the literal text of
the pattern, but `re` interprets metacharacters in it.  The pattern
`/a+/<x>/<y>` is in the claim range — two untyped placeholders, no typed
one, and the path `/aa/<x>/<y>` is not an exact match — yet dispatch does
not raise: the typed pass leaves the pattern unchanged, `re.fullmatch`
matches `/aa/<x>/<y>` through the `a+` quantifier with no capture groups,
and the handler is invoked with no parameters (a 200 response), so the
candidate neither raises nor falls through. -/
theorem star_c10_counterexample :
    2 ≤ countGroups (scanPH validateUntyped none (rstripSlash (str ("/a+/<x>/<y>")))) ∧
    (scanPH validateTyped none (rstripSlash (str ("/a+/<x>/<y>")))).all
        PatItem.isLit = true ∧
    normalizePath (str ("/aa/<x>/<y>")) ≠ rstripSlash (str ("/a+/<x>/<y>")) ∧
    handleRequest [(str ("/a+/<x>/<y>"), hOk)] (str ("/aa/<x>/<y>"))
        = Outcome.matched hOk [] :=
  ⟨by decide, by decide, by decide, rfl⟩

/-- C10 amended: for a candidate pattern with no typed placeholder, at least
two untyped placeholders, and literal text free of regex metacharacters,
every untyped placeholder is substituted by a capture group with the same
fixed name `var`; dispatching any (query-free) path that is not an exact
match against that candidate therefore raises the regex duplicate-group-name
compile error, instead of matching or falling through.  (The typed pass
leaves such a pattern all-literal, so it can only match the pattern text
itself, and the `path != "/"` guard never skips the dynamic passes because a
normalized path never ends in a slash.) -/
theorem star_c10_duplicate_group_crash (u : Str) (f : Handler) (raw : Str)
    (hq : '?' ∉ raw)
    (hmeta : ∀ c ∈ rstripSlash u, isMetaChar c = false)
    (htyped : (scanPH validateTyped none (rstripSlash u)).all PatItem.isLit = true)
    (hcount : 2 ≤ countGroups (scanPH validateUntyped none (rstripSlash u)))
    (hne : normalizePath raw ≠ rstripSlash u) :
    handleRequest [(u, f)] raw
      = Outcome.crashed (str ("re.error: redefinition of group name")) := by
  have hlit : ∀ it ∈ scanPH validateTyped none (rstripSlash u),
      PatItem.isLit it = true := by
    intro it m
    exact (List.all_eq_true.mp htyped) it m
  have hscan : scanPH validateTyped none (rstripSlash u)
      = (rstripSlash u).map PatItem.lit := by
    have := scanPH_allLit validateTyped (rstripSlash u) none hlit
    simpa [modeChars] using this
  have hcompT : compileTyped (rstripSlash u)
      = Except.ok ((rstripSlash u).map fun c => RElem.once (RAtom.achar c)) := by
    unfold compileTyped compileWith
    rw [hscan]
    simp [groupNames_map_lit, dupFree, parseRegex_ordinary hmeta]
  have hvar : ∀ n ∈ groupNames (scanPH validateUntyped none (rstripSlash u)),
      n = str ("var") := fun n m => scanPH_untyped_names (rstripSlash u) none n m
  have hcompU : compileUntyped (rstripSlash u)
      = Except.error (str ("re.error: redefinition of group name")) := by
    simp only [compileUntyped, compileWith]
    have hlen : 2 ≤ (groupNames (scanPH validateUntyped none (rstripSlash u))).length :=
      hcount
    cases e : groupNames (scanPH validateUntyped none (rstripSlash u)) with
    | nil =>
      rw [e] at hlen
      simp at hlen
    | cons a t =>
      cases t with
      | nil =>
        rw [e] at hlen
        simp at hlen
      | cons b t2 =>
        have hall : ∀ n ∈ (a :: b :: t2), n = str ("var") := by
          intro n m
          apply hvar
          rw [e]
          exact m
        have hid : (a :: b :: t2).all isIdent = true := by
          rw [List.all_eq_true]
          intro x m
          rw [hall x m]
          decide
        have hdup : dupFree (a :: b :: t2) = false := by
          have ha : a = str ("var") := hall a (List.mem_cons_self _ _)
          have hb : b = str ("var") :=
            hall b (List.mem_cons_of_mem _ (List.mem_cons_self _ _))
          subst ha
          subst hb
          simp [dupFree]
        simp [hid, hdup]
  have hslash : normalizePath raw ≠ ['/'] := by
    unfold normalizePath
    exact rstripSlash_ne_slash _
  have htc : tryCandidate false (normalizePath raw) u
      = Except.error (str ("re.error: redefinition of group name")) := by
    simp only [tryCandidate, if_neg hne, if_pos hslash, hcompT, matchElems_lit,
      hcompU]
  simp [handleRequest, parseArgs_no_query hq, scanRoutes, htc]

/-- C10 witness: the metacharacter-free pattern `/x/<a>/<b>` against the
path `/x/1/2`. -/
theorem star_c10_witness :
    handleRequest [(str ("/x/<a>/<b>"), hOk)] (str ("/x/1/2"))
      = Outcome.crashed (str ("re.error: redefinition of group name")) :=
  star_c10_duplicate_group_crash (str ("/x/<a>/<b>")) hOk (str ("/x/1/2"))
    (by decide) (by decide) (by decide) (by decide) (by decide)
